import Mathlib

/-!
Verification development for the batched autoregressive decoding engine in
src/indextts/accel/accel_engine.py. GPU tensors are embedded as Lean lists,
Python integers as Int or Nat, and float arithmetic as exact rationals. The
external collaborators of spec section 6 (the transformer model, the language
model head, the KV cache allocator and the exponential noise source) are
abstracted as explicit function parameters or modelled from the spec where
noted in doc comments.
-/

/-- Token and cache-block identifiers are Python integers. -/
abbrev Tok := Int

/-- Sequence state, mirroring the Sequence data model of spec section 3.
Modelled from the spec: the Seq class itself lives in the kv_manager module,
an external collaborator; the engine reads the attributes token_ids,
num_prompt_tokens, num_cached_tokens, block_table, num_cached_blocks and
last_block_num_tokens, which become the fields below. -/
structure Seq' where
  token_ids : List Tok
  num_prompt_tokens : Nat
  num_cached_tokens : Nat
  block_table : List Tok
  num_cached_blocks : Nat
  last_block_num_tokens : Nat
deriving Repr, DecidableEq

instance : Inhabited Seq' := ⟨⟨[], 0, 0, [], 0, 0⟩⟩

/-- Modelled from the spec: len(req) is the length of the ordered token
history (prompt plus generated tokens). -/
def Seq'.len (r : Seq') : Nat := r.token_ids.length

/-- Modelled from the spec: req.last_token is the final entry of the token
history, the per-sequence last generated token. -/
def Seq'.lastToken (r : Seq') : Tok := r.token_ids.getLastD 0

/-- Modelled from the spec: req.num_blocks is the number of cache blocks
assigned to the sequence, the length of its ordered block-identifier list. -/
def Seq'.numBlocks (r : Seq') : Nat := r.block_table.length

/-- Modelled from the spec: appending one generated token per decode step
extends the token history by one entry; all other bookkeeping is done by the
external KV cache allocator. -/
def Seq'.appendToken (r : Seq') (t : Tok) : Seq' :=
  { r with token_ids := r.token_ids ++ [t] }

/-- First index attaining the maximum of a row, matching torch.argmax on one
dimension, which returns the index of the first maximal value. -/
def argmaxGo (xs : List ℚ) (i bi : Nat) (bv : ℚ) : Nat :=
  match xs with
  | [] => bi
  | x :: rest => if bv < x then argmaxGo rest (i+1) i x else argmaxGo rest (i+1) bi bv

/-- Per-row arg-max over a logits row, 0 on an empty row. -/
def argmaxIdx : List ℚ → Nat
  | [] => 0
  | x :: rest => argmaxGo rest 1 0 x

/-- Decidable equality for Except values, used to evaluate the embedded
functions on concrete inputs. -/
instance {ε α : Type} [DecidableEq ε] [DecidableEq α] : DecidableEq (Except ε α) := fun a b =>
  match a, b with
  | .ok x, .ok y =>
    if h : x = y then .isTrue (by rw [h]) else .isFalse (by intro hc; cases hc; exact h rfl)
  | .error x, .error y =>
    if h : x = y then .isTrue (by rw [h]) else .isFalse (by intro hc; cases hc; exact h rfl)
  | .ok _, .error _ => .isFalse (by intro hc; cases hc)
  | .error _, .ok _ => .isFalse (by intro hc; cases hc)

/-! ## Decode preparation (_prepare_decode) -/

/-- Outputs of _prepare_decode: the two returned tensors and the contents the
function installs into the forward Execution Context. -/
structure DecodePrep where
  input_ids : List Tok
  positions : List Int
  slot_mapping : List Int
  context_lens : List Nat
  block_tables : List (List Tok)
deriving Repr, DecidableEq

/-- Position of a sequence in a decode step: len(req) - 1, shifted down by
tts_prompt_len - 1 in the embedding-driven mode. -/
def decodePos (ttsMode : Bool) (ttsPromptLen : Nat) (r : Seq') : Int :=
  let pos : Int := (r.len : Int) - 1
  if ttsMode then pos - ((ttsPromptLen : Int) - 1) else pos

/-- Cache slot for the single new entry a sequence writes in a decode step:
block_table last entry times block_size plus last_block_num_tokens minus 1. -/
def decodeSlot (blockSize : Nat) (r : Seq') : Int :=
  r.block_table.getLastD 0 * (blockSize : Int) + (r.last_block_num_tokens : Int) - 1

/-- Accumulator for the per-request loop of _prepare_decode, mirroring the
four Python lists grown by append. -/
structure DecodeAcc where
  input_ids : List Tok
  positions : List Int
  slot_mapping : List Int
  context_lens : List Nat
deriving Repr

/-- One iteration of the _prepare_decode loop body. -/
def decodeStepAcc (blockSize : Nat) (ttsMode : Bool) (ttsPromptLen : Nat)
    (acc : DecodeAcc) (r : Seq') : DecodeAcc :=
  { input_ids := acc.input_ids ++ [r.lastToken],
    positions := acc.positions ++ [decodePos ttsMode ttsPromptLen r],
    slot_mapping := acc.slot_mapping ++ [decodeSlot blockSize r],
    context_lens := acc.context_lens ++ [r.len] }

/-- Longest block-identifier list among a batch, the Python expression
max over requests of len(req.block_table). -/
def maxBlockLen (requests : List Seq') : Nat :=
  (requests.map (fun r => r.block_table.length)).foldl max 0

/-- Block-table matrix shared by both preparers: each row is the block list
of one sequence padded with -1 up to the longest list in the batch. -/
def padBlockRows (requests : List Seq') : List (List Tok) :=
  requests.map (fun r =>
    r.block_table ++ List.replicate (maxBlockLen requests - r.block_table.length) (-1))

/-- Embedding of AccelInferenceEngine._prepare_decode. The only failure is
the fatal error on an empty request list; the function reads but never
mutates the sequences. -/
def prepareDecode (blockSize : Nat) (ttsMode : Bool) (ttsPromptLen : Nat)
    (requests : List Seq') : Except String DecodePrep :=
  if requests.isEmpty then
    .error "FATAL: No requests provided to _prepare_decode!"
  else
    let acc := requests.foldl (decodeStepAcc blockSize ttsMode ttsPromptLen) ⟨[], [], [], []⟩
    .ok { input_ids := acc.input_ids, positions := acc.positions,
          slot_mapping := acc.slot_mapping, context_lens := acc.context_lens,
          block_tables := padBlockRows requests }

/-! ## Prefill preparation (_prepare_prefill) -/

/-- Outputs of _prepare_prefill: the two returned tensors plus the contents
installed into the forward Execution Context; the block-table matrix is only
built when the total key length strictly exceeds the total query length. -/
structure PrefillPrep where
  input_ids : List Tok
  positions : List Nat
  cu_seqlens_q : List Nat
  cu_seqlens_k : List Nat
  max_seqlen_q : Nat
  max_seqlen_k : Nat
  slot_mapping : List Int
  block_tables : Option (List (List Tok))
deriving Repr, DecidableEq

/-- Cache cells written by the new (uncached) blocks of one sequence: for
each block index from num_cached_blocks to num_blocks - 1, the cell range of
the block, of full block_size length except for the final block, which
contributes last_block_num_tokens cells. -/
def reqNewSlots (blockSize : Nat) (r : Seq') : List Int :=
  ((List.range' r.num_cached_blocks (r.numBlocks - r.num_cached_blocks)).map (fun i =>
    let first : Int := r.block_table.getD i 0 * (blockSize : Int)
    let cnt : Nat := if i ≠ r.numBlocks - 1 then blockSize else r.last_block_num_tokens
    (List.range cnt).map (fun c => first + (c : Int)))).flatten

/-- Accumulator for the per-request loop of _prepare_prefill, mirroring the
Python lists and running maxima grown inside the loop. -/
structure PrefillAcc where
  input_ids : List Tok
  positions : List Nat
  cu_seqlens_q : List Nat
  cu_seqlens_k : List Nat
  max_seqlen_q : Nat
  max_seqlen_k : Nat
  slot_mapping : List Int
deriving Repr

/-- One iteration of the _prepare_prefill loop body: only the uncached token
suffix contributes to the query, the full range to the key; the slot list is
only extended when the request has a nonempty block table. -/
def prefillStepAcc (blockSize : Nat) (acc : PrefillAcc) (r : Seq') : PrefillAcc :=
  let seqlen := r.len
  let seqlen_q := seqlen - r.num_cached_tokens
  let seqlen_k := seqlen
  { input_ids := acc.input_ids ++ r.token_ids.drop r.num_cached_tokens,
    positions := acc.positions ++ List.range' r.num_cached_tokens seqlen_q,
    cu_seqlens_q := acc.cu_seqlens_q ++ [acc.cu_seqlens_q.getLastD 0 + seqlen_q],
    cu_seqlens_k := acc.cu_seqlens_k ++ [acc.cu_seqlens_k.getLastD 0 + seqlen_k],
    max_seqlen_q := max seqlen_q acc.max_seqlen_q,
    max_seqlen_k := max seqlen_k acc.max_seqlen_k,
    slot_mapping := acc.slot_mapping ++
      (if r.block_table.isEmpty then [] else reqNewSlots blockSize r) }

/-- Embedding of AccelInferenceEngine._prepare_prefill. -/
def preparePrefill (blockSize : Nat) (requests : List Seq') : PrefillPrep :=
  let acc := requests.foldl (prefillStepAcc blockSize) ⟨[], [], [0], [0], 0, 0, []⟩
  let bt :=
    if acc.cu_seqlens_q.getLastD 0 < acc.cu_seqlens_k.getLastD 0 then
      some (padBlockRows requests)
    else none
  { input_ids := acc.input_ids, positions := acc.positions,
    cu_seqlens_q := acc.cu_seqlens_q, cu_seqlens_k := acc.cu_seqlens_k,
    max_seqlen_q := acc.max_seqlen_q, max_seqlen_k := acc.max_seqlen_k,
    slot_mapping := acc.slot_mapping, block_tables := bt }

/-! ## Sampler -/

/-- Clamp floor used on the exponential noise, 1e-10 in the source. -/
def sampleEps : ℚ := 1 / 10 ^ 10

/-- Softmax over one row. The transcendental exponential of torch.softmax is
abstracted as the explicit function parameter expQ; the row is mapped through
expQ and normalised by the row sum. -/
def softmaxRow (expQ : ℚ → ℚ) (row : List ℚ) : List ℚ :=
  let e := row.map expQ
  e.map (fun x => x / e.sum)

/-- Embedding of Sampler.forward: divide each row by its temperature, apply
softmax, divide elementwise by the unit-exponential noise clamped below at
sampleEps, and take the per-row arg-max. The random noise tensor drawn by
exponential_(1) is an explicit input, one row per batch row. -/
def samplerForward (expQ : ℚ → ℚ) (logits : List (List ℚ)) (temperatures : List ℚ)
    (noise : List (List ℚ)) : List Nat :=
  let scaled := List.zipWith (fun row t => row.map (fun l => l / t)) logits temperatures
  let probs := scaled.map (softmaxRow expQ)
  List.zipWith (fun prow nrow =>
    argmaxIdx (List.zipWith (fun p n => p / max n sampleEps) prow nrow)) probs noise

/-- Written from the words of claim C8: one token id per row, computed by
scaling the logits of row i by the reciprocal of its temperature, applying
softmax to obtain a probability distribution, dividing the probabilities
elementwise by the noise floored at the epsilon, and taking the arg-max. -/
def samplerSpec (expQ : ℚ → ℚ) (logits : List (List ℚ)) (temperatures : List ℚ)
    (noise : List (List ℚ)) : List Nat :=
  (List.range logits.length).map (fun i =>
    let probs := softmaxRow expQ ((logits.getD i []).map (fun l => (1 / temperatures.getD i 1) * l))
    argmaxIdx (List.zipWith (fun p n => p / max n sampleEps) probs (noise.getD i [])))

/-! ## Generation orchestrator (generate) -/

/-- Parameter bundle for one generate call. The transformer forward pass and
the lm_head projection are external collaborators (spec section 6), so the
logits matrix fed to sampling event n is abstracted as logitsAt n, where
event 0 is the prefill step and event n for positive n is decode step n; the
exponential noise drawn at event n is noiseAt n, and expQ abstracts the
exponential inside softmax. -/
structure GenParams where
  expQ : ℚ → ℚ
  logitsAt : Nat → List (List ℚ)
  noiseAt : Nat → List (List ℚ)
  temperature : ℚ
  stopTokens : List Tok

/-- Token selection at one sampling event: the sampler when temperature is
positive, the raw arg-max of the logits otherwise, as in generate. The
temperature tensor built by _prepare_sample replicates the scalar
temperature once per row. -/
def sampleTokens (expQ : ℚ → ℚ) (temperature : ℚ) (logits : List (List ℚ))
    (noise : List (List ℚ)) (batch : Nat) : List Tok :=
  if 0 < temperature then
    (samplerForward expQ logits (List.replicate batch temperature) noise).map (fun n => (n : Int))
  else
    logits.map (fun row => (argmaxIdx row : Int))

/-- Sampled token list at event n for a batch of the given size. -/
def stepTokens (P : GenParams) (n batch : Nat) : List Tok :=
  sampleTokens P.expQ P.temperature (P.logitsAt n) (P.noiseAt n) batch

/-- Stop condition of generate: stop_tokens is truthy and the token is a
member; an absent or empty stop list never matches, so list membership
captures both. -/
def stopHit (stopTokens : List Tok) (t : Tok) : Bool := stopTokens.contains t

/-- Models torch.tensor applied to a nested Python list of token rows: it
builds a rectangular matrix and raises ValueError when rows have unequal
lengths. -/
def toTensor2D (rows : List (List Tok)) : Except String (List (List Tok)) :=
  if rows.all (fun r => r.length = (rows.headD []).length) then .ok rows
  else .error "ValueError: expected sequence of equal length"

/-- Decode loop of generate, iterating up to the remaining-token budget from
sampling event n. Each iteration mirrors the source order: _prepare_decode
fails fatally on an empty batch, then the hard batch-size ceiling of 8 is
enforced, then the step tokens are sampled; a row whose token hits the stop
list is not appended to its sequence or its output, every other row is, and
the whole loop halts after any step in which some row hit its stop token. -/
def decodeLoop (P : GenParams) : Nat → Nat → List Seq' → List (List Tok) →
    Except String (List Seq' × List (List Tok))
  | 0, _, seqs, gens => .ok (seqs, gens)
  | fuel + 1, n, seqs, gens =>
    if seqs.isEmpty then .error "FATAL: No requests provided to _prepare_decode!"
    else if 8 < seqs.length then .error "FATAL: batch_size exceeds CUDA Graph limit (8)!"
    else
      let tokens := stepTokens P n seqs.length
      let seqs2 := List.zipWith (fun s t => if stopHit P.stopTokens t then s else s.appendToken t) seqs tokens
      let gens2 := List.zipWith (fun g t => if stopHit P.stopTokens t then g else g ++ [t]) gens tokens
      if tokens.any (stopHit P.stopTokens) then .ok (seqs2, gens2)
      else decodeLoop P fuel (n + 1) seqs2 gens2

/-- Embedding of AccelInferenceEngine.generate in token-id mode
(tts_embeddings is None): build one sequence per prompt row, sample the
first token from the prefill logits, return early with the prompt rows plus
the partial first tokens if any row stopped immediately, otherwise append
the first token everywhere and run the decode loop for max_new_tokens - 1
further steps; the output matrix is each row's prompt tokens followed by its
accumulated generated tokens. The KV cache allocate, append and release
calls mutate only the external cache pool and are not observable in the
returned tokens. -/
def generate (P : GenParams) (prompts : List (List Tok)) (maxNewTokens : Nat) :
    Except String (List (List Tok)) :=
  let batch := prompts.length
  let seqs := prompts.map (fun p => Seq'.mk p p.length 0 [] 0 0)
  let firstTokens := stepTokens P 0 batch
  let gens0 := firstTokens.map (fun t => if stopHit P.stopTokens t then ([] : List Tok) else [t])
  if firstTokens.any (stopHit P.stopTokens) then
    toTensor2D (List.zipWith (fun p g => p ++ g) prompts gens0)
  else
    let seqs1 := List.zipWith Seq'.appendToken seqs firstTokens
    match decodeLoop P (maxNewTokens - 1) 1 seqs1 gens0 with
    | .error e => .error e
    | .ok (seqsF, gensF) =>
      toTensor2D (List.zipWith (fun (s : Seq') g =>
        s.token_ids.take s.num_prompt_tokens ++ g) seqsF gensF)

/-! ## Decode execution with CUDA graph capture and replay -/

/-- Decode-phase fields of the forward Execution Context consumed by
_run_decode_with_graph. -/
structure Fctx where
  slot_mapping : List Int
  context_lens : List Nat
  block_tables : List (List Int)
deriving Repr, DecidableEq

/-- Fixed-address buffers of the captured execution plans, allocated once in
_capture_cuda_graphs for the largest supported batch size. -/
structure GraphVars where
  input_ids : List Int
  positions : List Int
  slot_mapping : List Int
  context_lens : List Nat
  block_tables : List (List Int)
  outputs : List Int
deriving Repr, DecidableEq

/-- Engine fields that drive the replay-or-fallback decision. graphs holds
the batch sizes with a captured plan, graph_bs the supported size list. -/
structure EngineGraphState where
  use_cuda_graph : Bool
  graphs : List Nat
  graph_bs : List Nat
  graph_vars : Option GraphVars
deriving Repr, DecidableEq

/-- Ceiling division, the block count needed to cover a context length. -/
def cdiv (a b : Nat) : Nat := (a + b - 1) / b

/-- Modelled from the spec: the transformer decode forward pass together
with the attention kernel and the TTS embedding path is an external
collaborator; per batch row it reads that rows token, its position (clamped
at zero before the embedding lookup in TTS mode), its cache slot, its
context length, and the first ceil(context_len / block_size) entries of its
block-table row, and yields that rows hidden state. M abstracts this per-row
computation. -/
def modelRow (M : Int → Int → Int → Nat → List Int → Int) (blockSize : Nat) (tts : Bool)
    (tok pos slot : Int) (ctx : Nat) (row : List Int) : Int :=
  M tok (if tts then max pos 0 else pos) slot ctx (row.take (cdiv ctx blockSize))

/-- Direct forward-call fallback of _run_decode_with_graph: the model runs
on the freshly prepared inputs and the live Execution Context. -/
def runDecodeDirect (M : Int → Int → Int → Nat → List Int → Int) (blockSize : Nat)
    (tts : Bool) (ids pos : List Int) (ctx : Fctx) : List Int :=
  (List.range ids.length).map (fun j =>
    modelRow M blockSize tts (ids.getD j 0) (pos.getD j 0) (ctx.slot_mapping.getD j 0)
      (ctx.context_lens.getD j 0) (ctx.block_tables.getD j []))

/-- In-place overwrite of the leading rows of a fixed buffer, the Python
slice assignment buffer[:n] = vals with n the length of vals. -/
def overwriteHead (buf vals : List α) : List α := vals ++ buf.drop vals.length

/-- Buffer repopulation before replay: tokens and positions written for the
active rows, the slot buffer reset to -1 everywhere then overwritten for the
active rows, the context-length buffer zeroed then refilled, and the active
rows of the block-table buffer overwritten on the column range of the
contexts block table, leaving stale values beyond it. -/
def replayWriteBuffers (gv : GraphVars) (bs : Nat) (ids pos : List Int) (ctx : Fctx) :
    GraphVars :=
  { input_ids := overwriteHead gv.input_ids ids,
    positions := overwriteHead gv.positions pos,
    slot_mapping := overwriteHead (gv.slot_mapping.map (fun _ => (-1 : Int))) ctx.slot_mapping,
    context_lens := overwriteHead (gv.context_lens.map (fun _ => 0)) ctx.context_lens,
    block_tables := (List.range gv.block_tables.length).map (fun j =>
      if j < bs then overwriteHead (gv.block_tables.getD j []) (ctx.block_tables.getD j [])
      else gv.block_tables.getD j []),
    outputs := gv.outputs }

/-- Replay of the plan captured for batch size gbs: the recorded operation
sequence recomputes the first gbs output rows from the current contents of
the fixed buffers. -/
def replayOutputs (M : Int → Int → Int → Nat → List Int → Int) (blockSize : Nat)
    (tts : Bool) (gbs : Nat) (gv : GraphVars) : List Int :=
  (List.range gbs).map (fun j =>
    modelRow M blockSize tts (gv.input_ids.getD j 0) (gv.positions.getD j 0)
      (gv.slot_mapping.getD j 0) (gv.context_lens.getD j 0) (gv.block_tables.getD j []))

/-- Embedding of AccelInferenceEngine._run_decode_with_graph: direct forward
call when graph replay is disabled or no plan exists; otherwise select the
smallest captured size at least the actual batch size, falling back to the
direct call when none qualifies; a selected plan with uninitialized buffer
state is a fatal error; otherwise repopulate the fixed buffers, replay, and
slice the output buffer to the actual batch size. -/
def runDecodeWithGraph (st : EngineGraphState) (M : Int → Int → Int → Nat → List Int → Int)
    (blockSize : Nat) (tts : Bool) (ids pos : List Int) (ctx : Fctx) :
    Except String (List Int) :=
  let bs := ids.length
  if ¬ st.use_cuda_graph ∨ st.graphs.isEmpty then
    .ok (runDecodeDirect M blockSize tts ids pos ctx)
  else
    match st.graph_bs.find? (fun x => decide (bs ≤ x)) with
    | none => .ok (runDecodeDirect M blockSize tts ids pos ctx)
    | some gbs =>
      match st.graph_vars with
      | none => .error "Graph variables not initialized"
      | some gv =>
        let gv2 := replayWriteBuffers gv bs ids pos ctx
        .ok ((replayOutputs M blockSize tts gbs gv2).take bs)

/-- Capture-time constant of _capture_cuda_graphs: fixed buffers are
allocated for a maximum batch size of 8. -/
def captureMaxBs : Nat := 8

/-- Capture-time constant of _capture_cuda_graphs: the list of batch sizes
for which a plan is actually captured. -/
def graphBsCaptured : List Nat := [1]

/-! ## Helper lemmas -/

theorem decode_foldl_char (blockSize : Nat) (tts : Bool) (tpl : Nat) :
    ∀ (l : List Seq') (acc : DecodeAcc),
      l.foldl (decodeStepAcc blockSize tts tpl) acc =
        ⟨acc.input_ids ++ l.map Seq'.lastToken,
         acc.positions ++ l.map (decodePos tts tpl),
         acc.slot_mapping ++ l.map (decodeSlot blockSize),
         acc.context_lens ++ l.map Seq'.len⟩ := by
  intro l
  induction l with
  | nil => intro acc; simp
  | cons r t ih =>
    intro acc
    simp only [List.foldl_cons, ih, decodeStepAcc, List.map_cons]
    simp [List.append_assoc]

theorem le_foldl_max_init (l : List Nat) (a : Nat) : a ≤ l.foldl max a := by
  induction l generalizing a with
  | nil => simp
  | cons b t ih => exact le_trans (le_max_left a b) (ih (max a b))

theorem mem_le_foldl_max (l : List Nat) (a x : Nat) (hx : x ∈ l) : x ≤ l.foldl max a := by
  induction l generalizing a with
  | nil => cases hx
  | cons b t ih =>
    rcases List.mem_cons.mp hx with h | h
    · subst h
      exact le_trans (le_max_right a x) (le_foldl_max_init t (max a x))
    · exact ih (max a b) h

theorem block_len_le_maxBlockLen (requests : List Seq') (r : Seq') (hr : r ∈ requests) :
    r.block_table.length ≤ maxBlockLen requests :=
  mem_le_foldl_max _ 0 _ (List.mem_map_of_mem (fun s => s.block_table.length) hr)

theorem prepare_decode_eq (blockSize ttsPromptLen : Nat) (tts : Bool)
    (requests : List Seq') (hno : requests.isEmpty = false) :
    prepareDecode blockSize tts ttsPromptLen requests = .ok
      ⟨requests.map Seq'.lastToken, requests.map (decodePos tts ttsPromptLen),
       requests.map (decodeSlot blockSize), requests.map Seq'.len,
       padBlockRows requests⟩ := by
  unfold prepareDecode
  rw [hno]
  simp [decode_foldl_char]

/-! ## Claim C3 -/

/-- Claim C3: for every non-empty list of active sequences, decode
preparation outputs, per sequence, its last generated token, its position
equal to sequence length minus one shifted down by prompt length minus one
in TTS mode, a single cache slot equal to last block id times block size
plus last block fill count minus one, its running context length, and a
block-table matrix padded with -1 to the longest block list in the batch,
with one row per sequence. -/
theorem prepare_decode_outputs (blockSize ttsPromptLen : Nat) (tts : Bool)
    (requests : List Seq') (hne : requests ≠ []) :
    ∃ p, prepareDecode blockSize tts ttsPromptLen requests = .ok p ∧
      p.input_ids = requests.map Seq'.lastToken ∧
      p.positions = requests.map (fun r =>
        ((r.len : Int) - 1) - (if tts then (ttsPromptLen : Int) - 1 else 0)) ∧
      p.slot_mapping = requests.map (fun r =>
        r.block_table.getLastD 0 * (blockSize : Int) + (r.last_block_num_tokens : Int) - 1) ∧
      p.context_lens = requests.map Seq'.len ∧
      p.block_tables.length = requests.length ∧
      (∀ row ∈ p.block_tables, row.length = maxBlockLen requests) ∧
      p.block_tables = requests.map (fun r =>
        r.block_table ++ List.replicate (maxBlockLen requests - r.block_table.length) (-1)) := by
  have hno : requests.isEmpty = false := by
    cases requests with
    | nil => exact absurd rfl hne
    | cons a t => rfl
  refine ⟨_, prepare_decode_eq blockSize ttsPromptLen tts requests hno,
    ?_, ?_, ?_, ?_, ?_, ?_, rfl⟩
  · rfl
  · refine List.map_congr_left (fun r _ => ?_)
    unfold decodePos
    by_cases h : tts <;> simp [h]
  · refine List.map_congr_left (fun r _ => ?_)
    unfold decodeSlot
    ring
  · rfl
  · simp [padBlockRows]
  · intro row hrow
    unfold padBlockRows at hrow
    rcases List.mem_map.mp hrow with ⟨r, hr, hrw⟩
    have hle := block_len_le_maxBlockLen requests r hr
    rw [← hrw]
    simp
    omega

/-- Concrete two-row batch used by the C3 witness. -/
def twoReqs : List Seq' := [⟨[3, 5], 1, 0, [2], 0, 2⟩, ⟨[7], 1, 0, [0, 1], 0, 1⟩]

/-- Witness for claim C3 at a concrete two-row batch. -/
theorem prepare_decode_outputs_witness :
    ∃ p, prepareDecode 4 true 3 twoReqs = .ok p ∧
      p.input_ids = twoReqs.map Seq'.lastToken ∧
      p.positions = twoReqs.map (fun r =>
        ((r.len : Int) - 1) - (if true then ((3 : Nat) : Int) - 1 else 0)) ∧
      p.slot_mapping = twoReqs.map (fun r =>
        r.block_table.getLastD 0 * ((4 : Nat) : Int) + (r.last_block_num_tokens : Int) - 1) ∧
      p.context_lens = twoReqs.map Seq'.len ∧
      p.block_tables.length = twoReqs.length ∧
      (∀ row ∈ p.block_tables, row.length = maxBlockLen twoReqs) ∧
      p.block_tables = twoReqs.map (fun r =>
        r.block_table ++ List.replicate (maxBlockLen twoReqs - r.block_table.length) (-1)) :=
  prepare_decode_outputs 4 3 true twoReqs (by decide)

/-! ## Claim C6 -/

/-- Nine identical well-formed sequences, one more than the ceiling. -/
def nineSeqs : List Seq' := List.replicate 9 ⟨[1, 2], 2, 0, [0], 0, 2⟩

/-- Counterexample to claim C6 as stated: decode preparation itself, called
with 9 sequences, does not raise; it returns successfully, because the
batch-size ceiling is checked in the decode loop of generate, not in
_prepare_decode. -/
theorem prepare_decode_nine_ok : (prepareDecode 256 false 0 nineSeqs).isOk = true := by decide

/-- Generation parameters for a greedy 9-row batch: every step yields the
logits row [0, 1] for each of the 9 rows, there are no stop tokens and the
temperature is zero. -/
def nineP : GenParams :=
  ⟨id, fun _ => List.replicate 9 [0, 1], fun _ => [], 0, []⟩

/-- Amended claim C6: decode preparation with 9 sequences succeeds without
raising and without mutating any sequence; the fatal batch-size-ceiling
error is raised by the decode loop of generate immediately after decode
preparation, before any decode forward pass, aborting the generation call
with no partial result. -/
theorem generate_nine_ceiling_error :
    (prepareDecode 256 false 0 nineSeqs).isOk = true ∧
    generate nineP (List.replicate 9 [5]) 3 =
      .error "FATAL: batch_size exceeds CUDA Graph limit (8)!" := by
  constructor
  · decide
  · decide

/-! ## Claim C9 -/

/-- Claim C9: the set of captured execution plans is exactly batch size 1,
while the fixed buffers are allocated for batch size 8; consequently every
decode step with an actual batch size between 2 and 8 finds no captured size
at least the batch size and always executes through the direct forward-call
fallback, never through graph replay. -/
theorem graph_only_bs1_fallback :
    graphBsCaptured = [1] ∧ captureMaxBs = 8 ∧
    ∀ (st : EngineGraphState) (M : Int → Int → Int → Nat → List Int → Int)
      (blockSize : Nat) (tts : Bool) (ids pos : List Int) (ctx : Fctx),
      st.graph_bs = graphBsCaptured → 2 ≤ ids.length → ids.length ≤ 8 →
      runDecodeWithGraph st M blockSize tts ids pos ctx =
        .ok (runDecodeDirect M blockSize tts ids pos ctx) := by
  refine ⟨rfl, rfl, ?_⟩
  intro st M blockSize tts ids pos ctx hgb h2 _
  unfold runDecodeWithGraph
  by_cases hc : ¬ st.use_cuda_graph ∨ st.graphs.isEmpty
  · rw [if_pos hc]
  · rw [if_neg hc]
    have hf : List.find? (fun x => decide (ids.length ≤ x)) st.graph_bs = none := by
      rw [hgb]
      have hnle : (decide (ids.length ≤ 1)) = false := by
        simp only [decide_eq_false_iff_not]
        omega
      simp [graphBsCaptured, List.find?, hnle]
    rw [hf]

/-- Concrete engine state whose supported size list is the captured one. -/
def stBs1 : EngineGraphState :=
  ⟨true, [1], graphBsCaptured, some ⟨List.replicate 8 0, List.replicate 8 0,
    List.replicate 8 0, List.replicate 8 0, List.replicate 8 [], List.replicate 8 0⟩⟩

/-- Witness for claim C9: a batch of 3 rows on the captured-size-1 engine
state takes the direct fallback. -/
theorem graph_only_bs1_fallback_witness :
    runDecodeWithGraph stBs1 (fun t p s c row => t + p + s + c + row.sum) 4 false
      [5, 6, 7] [1, 2, 3] ⟨[9, 10, 11], [2, 3, 4], [[0], [1], [2]]⟩ =
      .ok (runDecodeDirect (fun t p s c row => t + p + s + c + row.sum) 4 false
        [5, 6, 7] [1, 2, 3] ⟨[9, 10, 11], [2, 3, 4], [[0], [1], [2]]⟩) :=
  graph_only_bs1_fallback.2.2 stBs1 _ 4 false _ _ _ rfl (by decide) (by decide)

/-! ## Prefill helper lemmas -/

/-- Running partial sums with a given start value, the shape taken by the
cumulative-length arrays. -/
def partialSums (s : Nat) : List Nat → List Nat
  | [] => []
  | x :: xs => (s + x) :: partialSums (s + x) xs

theorem partialSums_length (s : Nat) (l : List Nat) : (partialSums s l).length = l.length := by
  induction l generalizing s with
  | nil => rfl
  | cons x xs ih => simp [partialSums, ih]

theorem chain'_partialSums (s : Nat) (l : List Nat) :
    List.Chain' (· ≤ ·) (s :: partialSums s l) := by
  induction l generalizing s with
  | nil => simp [partialSums]
  | cons x xs ih =>
    simp only [partialSums]
    exact List.chain'_cons.mpr ⟨Nat.le_add_right s x, ih (s + x)⟩

theorem partialSums_getD (l : List Nat) :
    ∀ (s i : Nat), i < l.length →
      (s :: partialSums s l).getD (i + 1) 0 = (s :: partialSums s l).getD i 0 + l.getD i 0 := by
  induction l with
  | nil => intro s i hi; cases hi
  | cons x xs ih =>
    intro s i hi
    cases i with
    | zero => simp [partialSums]
    | succ j =>
      have hj : j < xs.length := by simpa using hi
      simpa [partialSums] using ih (s + x) j hj

theorem partialSums_getLastD (l : List Nat) :
    ∀ s : Nat, (partialSums s l).getLastD s = s + l.sum := by
  induction l with
  | nil => intro s; simp [partialSums]
  | cons x xs ih =>
    intro s
    simp only [partialSums, List.getLastD_cons, ih (s + x), List.sum_cons]
    omega

theorem prefill_foldl_cu_q (blockSize : Nat) :
    ∀ (l : List Seq') (acc : PrefillAcc),
      (l.foldl (prefillStepAcc blockSize) acc).cu_seqlens_q =
        acc.cu_seqlens_q ++ partialSums (acc.cu_seqlens_q.getLastD 0)
          (l.map (fun r => r.len - r.num_cached_tokens)) := by
  intro l
  induction l with
  | nil => intro acc; simp [partialSums]
  | cons r t ih =>
    intro acc
    rw [List.foldl_cons, ih]
    simp only [prefillStepAcc]
    rw [List.getLastD_concat]
    simp [partialSums, List.append_assoc]

theorem prefill_foldl_cu_k (blockSize : Nat) :
    ∀ (l : List Seq') (acc : PrefillAcc),
      (l.foldl (prefillStepAcc blockSize) acc).cu_seqlens_k =
        acc.cu_seqlens_k ++ partialSums (acc.cu_seqlens_k.getLastD 0) (l.map Seq'.len) := by
  intro l
  induction l with
  | nil => intro acc; simp [partialSums]
  | cons r t ih =>
    intro acc
    rw [List.foldl_cons, ih]
    simp only [prefillStepAcc]
    rw [List.getLastD_concat]
    simp [partialSums, List.append_assoc]

theorem prefill_foldl_slots (blockSize : Nat) :
    ∀ (l : List Seq') (acc : PrefillAcc),
      (l.foldl (prefillStepAcc blockSize) acc).slot_mapping =
        acc.slot_mapping ++
          (l.map (fun r => if r.block_table.isEmpty then [] else reqNewSlots blockSize r)).flatten := by
  intro l
  induction l with
  | nil => intro acc; simp
  | cons r t ih =>
    intro acc
    rw [List.foldl_cons, ih]
    simp [prefillStepAcc, List.append_assoc]

theorem preparePrefill_cu_q (blockSize : Nat) (requests : List Seq') :
    (preparePrefill blockSize requests).cu_seqlens_q =
      0 :: partialSums 0 (requests.map (fun r => r.len - r.num_cached_tokens)) := by
  show (requests.foldl (prefillStepAcc blockSize) ⟨[], [], [0], [0], 0, 0, []⟩).cu_seqlens_q = _
  rw [prefill_foldl_cu_q]
  rfl

theorem preparePrefill_cu_k (blockSize : Nat) (requests : List Seq') :
    (preparePrefill blockSize requests).cu_seqlens_k =
      0 :: partialSums 0 (requests.map Seq'.len) := by
  show (requests.foldl (prefillStepAcc blockSize) ⟨[], [], [0], [0], 0, 0, []⟩).cu_seqlens_k = _
  rw [prefill_foldl_cu_k]
  rfl

theorem cu_getLastD_sum (l : List Nat) : (0 :: partialSums 0 l).getLastD 0 = l.sum := by
  rw [List.getLastD_cons]
  simpa using partialSums_getLastD l 0

/-! ## Claim C4 -/

/-- Claim C4: for every list of sequences passed to prefill preparation, the
cumulative-length arrays for queries and for keys start at 0 and are
monotonically non-decreasing, the per-sequence query length equals total
tokens minus cached tokens and the key length equals total tokens, and for a
single-row prefill with no cached tokens the final entries of both arrays
equal the prompt length. -/
theorem prefill_cu_seqlens_props (blockSize : Nat) (requests : List Seq') :
    (preparePrefill blockSize requests).cu_seqlens_q.head? = some 0 ∧
    (preparePrefill blockSize requests).cu_seqlens_k.head? = some 0 ∧
    List.Chain' (· ≤ ·) (preparePrefill blockSize requests).cu_seqlens_q ∧
    List.Chain' (· ≤ ·) (preparePrefill blockSize requests).cu_seqlens_k ∧
    (preparePrefill blockSize requests).cu_seqlens_q.length = requests.length + 1 ∧
    (preparePrefill blockSize requests).cu_seqlens_k.length = requests.length + 1 ∧
    (∀ i (hi : i < requests.length),
      (preparePrefill blockSize requests).cu_seqlens_q.getD (i + 1) 0 =
        (preparePrefill blockSize requests).cu_seqlens_q.getD i 0 +
          (requests[i].len - requests[i].num_cached_tokens) ∧
      (preparePrefill blockSize requests).cu_seqlens_k.getD (i + 1) 0 =
        (preparePrefill blockSize requests).cu_seqlens_k.getD i 0 + requests[i].len) ∧
    (∀ r : Seq', r.num_cached_tokens = 0 →
      (preparePrefill blockSize [r]).cu_seqlens_q.getLastD 0 = r.len ∧
      (preparePrefill blockSize [r]).cu_seqlens_k.getLastD 0 = r.len) := by
  rw [preparePrefill_cu_q, preparePrefill_cu_k]
  refine ⟨rfl, rfl, chain'_partialSums 0 _, chain'_partialSums 0 _, ?_, ?_, ?_, ?_⟩
  · simp [partialSums_length]
  · simp [partialSums_length]
  · intro i hi
    constructor
    · rw [partialSums_getD _ 0 i (by simpa using hi)]
      have hd : (requests.map (fun r => r.len - r.num_cached_tokens)).getD i 0 =
          requests[i].len - requests[i].num_cached_tokens := by
        rw [List.getD_eq_getElem _ 0 (by simpa using hi), List.getElem_map]
      rw [hd]
    · rw [partialSums_getD _ 0 i (by simpa using hi)]
      have hd : (requests.map Seq'.len).getD i 0 = requests[i].len := by
        rw [List.getD_eq_getElem _ 0 (by simpa using hi), List.getElem_map]
      rw [hd]
  · intro r hr
    rw [preparePrefill_cu_q, preparePrefill_cu_k, cu_getLastD_sum, cu_getLastD_sum]
    simp [hr]

/-- Concrete one-row request used by the C4 witness. -/
def oneReq : Seq' := ⟨[5, 9, 2], 3, 0, [0], 0, 3⟩

/-- Witness for claim C4: the single-row conclusion of the claim at a
concrete three-token prompt with no cached tokens. -/
theorem prefill_cu_seqlens_props_witness :
    (preparePrefill 4 [oneReq]).cu_seqlens_q.getLastD 0 = oneReq.len ∧
    (preparePrefill 4 [oneReq]).cu_seqlens_k.getLastD 0 = oneReq.len :=
  (prefill_cu_seqlens_props 4 [oneReq]).2.2.2.2.2.2.2 oneReq rfl

/-! ## Claim C5 -/

/-- Written from the words of claim C5: the cells of each uncached (new)
block of a sequence, with full block_size cells per non-final new block and
last_block_num_tokens cells for the final block, excluding cells of already
cached blocks. -/
def specNewCells (blockSize : Nat) (r : Seq') : List Int :=
  ((List.range' r.num_cached_blocks (r.numBlocks - r.num_cached_blocks)).map (fun i =>
    let width : Nat := if i = r.numBlocks - 1 then r.last_block_num_tokens else blockSize
    (List.range width).map (fun c =>
      r.block_table.getD i 0 * (blockSize : Int) + (c : Int)))).flatten

theorem reqNewSlots_eq_spec (blockSize : Nat) (r : Seq') :
    reqNewSlots blockSize r = specNewCells blockSize r := by
  unfold reqNewSlots specNewCells
  congr 1
  refine List.map_congr_left (fun i _ => ?_)
  by_cases h : i = r.numBlocks - 1 <;> simp [h]

theorem guard_eq_spec (blockSize : Nat) (r : Seq') :
    (if r.block_table.isEmpty then [] else reqNewSlots blockSize r) =
      specNewCells blockSize r := by
  by_cases h : r.block_table.isEmpty
  · have hbt : r.block_table = [] := List.isEmpty_iff.mp h
    simp [h, specNewCells, Seq'.numBlocks, hbt]
  · rw [if_neg h, reqNewSlots_eq_spec]

theorem sum_q_lt_iff (requests : List Seq') :
    (requests.map (fun r => r.len - r.num_cached_tokens)).sum <
        (requests.map Seq'.len).sum ↔
      ∃ r ∈ requests, r.len - r.num_cached_tokens < r.len := by
  induction requests with
  | nil => simp
  | cons a t ih =>
    simp only [List.map_cons, List.sum_cons, List.mem_cons]
    have ha : a.len - a.num_cached_tokens ≤ a.len := Nat.sub_le _ _
    have ht : (t.map (fun r => r.len - r.num_cached_tokens)).sum ≤ (t.map Seq'.len).sum :=
      List.sum_le_sum (fun r _ => Nat.sub_le _ _)
    constructor
    · intro h
      by_cases hstrict : a.len - a.num_cached_tokens < a.len
      · exact ⟨a, Or.inl rfl, hstrict⟩
      · have hts : (t.map (fun r => r.len - r.num_cached_tokens)).sum <
            (t.map Seq'.len).sum := by omega
        rcases ih.mp hts with ⟨r, hr, hrs⟩
        exact ⟨r, Or.inr hr, hrs⟩
    · rintro ⟨r, hr | hr, hrs⟩
      · subst hr
        omega
      · have := ih.mpr ⟨r, hr, hrs⟩
        omega

theorem preparePrefill_block_tables (blockSize : Nat) (requests : List Seq') :
    (preparePrefill blockSize requests).block_tables =
      if (requests.map (fun r => r.len - r.num_cached_tokens)).sum <
          (requests.map Seq'.len).sum
      then some (padBlockRows requests) else none := by
  have h1 : (preparePrefill blockSize requests).cu_seqlens_q.getLastD 0 =
      (requests.map (fun r => r.len - r.num_cached_tokens)).sum := by
    rw [preparePrefill_cu_q, cu_getLastD_sum]
  have h2 : (preparePrefill blockSize requests).cu_seqlens_k.getLastD 0 =
      (requests.map Seq'.len).sum := by
    rw [preparePrefill_cu_k, cu_getLastD_sum]
  show (if (preparePrefill blockSize requests).cu_seqlens_q.getLastD 0 <
      (preparePrefill blockSize requests).cu_seqlens_k.getLastD 0
    then some (padBlockRows requests) else none) = _
  rw [h1, h2]

/-- Claim C5: for every list of sequences passed to prefill preparation, the
flattened slot mapping enumerates exactly the cells of each sequence's
uncached new blocks, full blocks except for the final block which
contributes its fill count, excluding cells of already cached blocks; and a
block-table matrix padded with -1 is produced if and only if some sequence's
key length exceeds its query length, equivalently the total key length
exceeds the total query length, and is otherwise absent. -/
theorem prefill_slots_block_tables (blockSize : Nat) (requests : List Seq') :
    (preparePrefill blockSize requests).slot_mapping =
      (requests.map (specNewCells blockSize)).flatten ∧
    ((preparePrefill blockSize requests).block_tables.isSome = true ↔
      ∃ r ∈ requests, r.len - r.num_cached_tokens < r.len) ∧
    ((preparePrefill blockSize requests).block_tables.isSome = true ↔
      (requests.map (fun r => r.len - r.num_cached_tokens)).sum <
        (requests.map Seq'.len).sum) ∧
    (∀ bt, (preparePrefill blockSize requests).block_tables = some bt →
      bt = requests.map (fun r =>
        r.block_table ++ List.replicate (maxBlockLen requests - r.block_table.length) (-1))) := by
  refine ⟨?_, ?_, ?_, ?_⟩
  · show (requests.foldl (prefillStepAcc blockSize) ⟨[], [], [0], [0], 0, 0, []⟩).slot_mapping = _
    rw [prefill_foldl_slots]
    simp only [List.nil_append]
    congr 1
    exact List.map_congr_left (fun r _ => guard_eq_spec blockSize r)
  · rw [preparePrefill_block_tables, ← sum_q_lt_iff]
    by_cases hc : (requests.map (fun r => r.len - r.num_cached_tokens)).sum <
        (requests.map Seq'.len).sum <;> simp [hc]
  · rw [preparePrefill_block_tables]
    by_cases hc : (requests.map (fun r => r.len - r.num_cached_tokens)).sum <
        (requests.map Seq'.len).sum <;> simp [hc]
  · intro bt hbt
    rw [preparePrefill_block_tables] at hbt
    by_cases hc : (requests.map (fun r => r.len - r.num_cached_tokens)).sum <
        (requests.map Seq'.len).sum
    · rw [if_pos hc] at hbt
      cases hbt
      rfl
    · rw [if_neg hc] at hbt
      cases hbt

/-- Concrete one-row request with a reused cached block for the C5 witness. -/
def cachedReq : Seq' := ⟨[3, 5, 8], 3, 2, [0], 0, 3⟩

/-- Witness for claim C5: applying the block-table characterization at a
one-row batch whose prefix is cached, where the matrix is present. -/
theorem prefill_slots_block_tables_witness :
    [[(0 : Int)]] = [cachedReq].map (fun r =>
      r.block_table ++ List.replicate (maxBlockLen [cachedReq] - r.block_table.length) (-1)) :=
  (prefill_slots_block_tables 4 [cachedReq]).2.2.2 [[(0 : Int)]] (by decide)

/-! ## Claim C8 -/

theorem samplerForward_cons (expQ : ℚ → ℚ) (row : List ℚ) (rows : List (List ℚ))
    (t : ℚ) (ts : List ℚ) (nr : List ℚ) (nrs : List (List ℚ)) :
    samplerForward expQ (row :: rows) (t :: ts) (nr :: nrs) =
      argmaxIdx (List.zipWith (fun p n => p / max n sampleEps)
        (softmaxRow expQ (row.map (fun l => l / t))) nr) ::
      samplerForward expQ rows ts nrs := rfl

theorem samplerSpec_cons (expQ : ℚ → ℚ) (row : List ℚ) (rows : List (List ℚ))
    (t : ℚ) (ts : List ℚ) (nr : List ℚ) (nrs : List (List ℚ)) :
    samplerSpec expQ (row :: rows) (t :: ts) (nr :: nrs) =
      argmaxIdx (List.zipWith (fun p n => p / max n sampleEps)
        (softmaxRow expQ (row.map (fun l => (1 / t) * l))) nr) ::
      samplerSpec expQ rows ts nrs := by
  unfold samplerSpec
  rw [List.length_cons, List.range_succ_eq_map, List.map_cons]
  congr 1
  rw [List.map_map]
  refine List.map_congr_left (fun i _ => ?_)
  simp [Function.comp]

/-- Claim C8: for every logits matrix and temperature vector with all
temperatures positive, the Sampler returns one token id per row, computed by
scaling each row by the reciprocal of its temperature, applying softmax,
dividing the probabilities elementwise by unit-exponential noise floored at
a small epsilon, and taking the per-row arg-max. -/
theorem sampler_matches_spec (expQ : ℚ → ℚ) (logits : List (List ℚ))
    (temperatures : List ℚ) (noise : List (List ℚ))
    (hT : temperatures.length = logits.length) (hN : noise.length = logits.length)
    (hpos : ∀ t ∈ temperatures, 0 < t) :
    samplerForward expQ logits temperatures noise =
      samplerSpec expQ logits temperatures noise ∧
    (samplerForward expQ logits temperatures noise).length = logits.length := by
  induction logits generalizing temperatures noise with
  | nil =>
    cases temperatures with
    | nil =>
      cases noise with
      | nil => exact ⟨rfl, rfl⟩
      | cons _ _ => simp at hN
    | cons _ _ => simp at hT
  | cons row rows ih =>
    cases temperatures with
    | nil => simp at hT
    | cons t ts =>
      cases noise with
      | nil => simp at hN
      | cons nr nrs =>
        have hT' : ts.length = rows.length := by simpa using hT
        have hN' : nrs.length = rows.length := by simpa using hN
        have hpos' : ∀ x ∈ ts, 0 < x := fun x hx => hpos x (List.mem_cons_of_mem t hx)
        obtain ⟨ihEq, ihLen⟩ := ih ts nrs hT' hN' hpos'
        have hscale : row.map (fun l => l / t) = row.map (fun l => (1 / t) * l) :=
          List.map_congr_left (fun l _ => by rw [div_eq_mul_inv, one_div, mul_comm])
        constructor
        · rw [samplerForward_cons, samplerSpec_cons, ihEq, hscale]
        · rw [samplerForward_cons, List.length_cons, ihLen, List.length_cons]

/-- Witness for claim C8 at a concrete one-row batch with temperature 1. -/
theorem sampler_matches_spec_witness :
    samplerForward id [[0, 1]] [1] [[1, 1]] = samplerSpec id [[0, 1]] [1] [[1, 1]] ∧
    (samplerForward id [[0, 1]] [1] [[1, 1]]).length = 1 :=
  sampler_matches_spec id [[0, 1]] [1] [[1, 1]] rfl rfl (by decide)

/-! ## Claim C2 -/

theorem modelRow_congr (M : Int → Int → Int → Nat → List Int → Int) (blockSize : Nat)
    (tts : Bool) (tok pos slot : Int) (c : Nat) (r1 r2 : List Int)
    (h : r1.take (cdiv c blockSize) = r2.take (cdiv c blockSize)) :
    modelRow M blockSize tts tok pos slot c r1 = modelRow M blockSize tts tok pos slot c r2 := by
  unfold modelRow
  rw [h]

/-- Claim C2: whenever the graph-replay path of _run_decode_with_graph is
selected, the hidden states it returns equal those of the direct
forward-call fallback on the same logical inputs, for every per-row model
function: the repopulated buffer rows agree with the fresh inputs on the
first bs rows, and the attention reads only the covered block prefix of
each active row. -/
theorem decode_replay_equiv (st : EngineGraphState)
    (M : Int → Int → Int → Nat → List Int → Int) (blockSize : Nat) (tts : Bool)
    (ids pos : List Int) (ctx : Fctx) (gbs : Nat) (gv : GraphVars)
    (hcud : st.use_cuda_graph = true) (hgr : st.graphs ≠ [])
    (hfind : st.graph_bs.find? (fun x => decide (ids.length ≤ x)) = some gbs)
    (hgv : st.graph_vars = some gv)
    (hpos : pos.length = ids.length)
    (hslot : ctx.slot_mapping.length = ids.length)
    (hctx : ctx.context_lens.length = ids.length)
    (hbuf : ids.length ≤ gv.block_tables.length)
    (hwidth : ∀ j, j < ids.length →
      cdiv (ctx.context_lens.getD j 0) blockSize ≤ (ctx.block_tables.getD j []).length) :
    runDecodeWithGraph st M blockSize tts ids pos ctx =
      .ok (runDecodeDirect M blockSize tts ids pos ctx) := by
  have hble : ids.length ≤ gbs := by simpa using List.find?_some hfind
  have hc : ¬ (¬ st.use_cuda_graph ∨ st.graphs.isEmpty) := by
    simp [hcud, List.isEmpty_iff, hgr]
  unfold runDecodeWithGraph
  rw [if_neg hc, hfind, hgv]
  show Except.ok ((replayOutputs M blockSize tts gbs
      (replayWriteBuffers gv ids.length ids pos ctx)).take ids.length) =
    Except.ok (runDecodeDirect M blockSize tts ids pos ctx)
  congr 1
  unfold replayOutputs
  rw [← List.map_take, List.take_range, inf_eq_left.mpr hble]
  unfold runDecodeDirect
  refine List.ext_getElem (by simp) (fun j h1 h2 => ?_)
  simp only [List.getElem_map, List.getElem_range]
  have hj : j < ids.length := by simpa using h1
  have e1 : (replayWriteBuffers gv ids.length ids pos ctx).input_ids.getD j 0 =
      ids.getD j 0 := by
    show (ids ++ _).getD j 0 = ids.getD j 0
    exact List.getD_append _ _ _ _ hj
  have e2 : (replayWriteBuffers gv ids.length ids pos ctx).positions.getD j 0 =
      pos.getD j 0 := by
    show (pos ++ _).getD j 0 = pos.getD j 0
    exact List.getD_append _ _ _ _ (by omega)
  have e3 : (replayWriteBuffers gv ids.length ids pos ctx).slot_mapping.getD j 0 =
      ctx.slot_mapping.getD j 0 := by
    show (ctx.slot_mapping ++ _).getD j 0 = ctx.slot_mapping.getD j 0
    exact List.getD_append _ _ _ _ (by omega)
  have e4 : (replayWriteBuffers gv ids.length ids pos ctx).context_lens.getD j 0 =
      ctx.context_lens.getD j 0 := by
    show (ctx.context_lens ++ _).getD j 0 = ctx.context_lens.getD j 0
    exact List.getD_append _ _ _ _ (by omega)
  have e5 : (replayWriteBuffers gv ids.length ids pos ctx).block_tables.getD j [] =
      ctx.block_tables.getD j [] ++ (gv.block_tables.getD j []).drop
        (ctx.block_tables.getD j []).length := by
    show ((List.range gv.block_tables.length).map _).getD j [] = _
    rw [List.getD_eq_getElem _ _ (by simpa using lt_of_lt_of_le hj hbuf),
      List.getElem_map, List.getElem_range, if_pos hj]
    rfl
  rw [e1, e2, e3, e4, e5]
  exact modelRow_congr M blockSize tts _ _ _ _ _ _
    (List.take_append_of_le_length (hwidth j hj))

/-- Witness for claim C2: a one-row batch replayed through the captured
size-1 plan equals the direct forward call. -/
theorem decode_replay_equiv_witness :
    runDecodeWithGraph stBs1 (fun t p s c row => t + p + s + c + row.sum) 4 false
      [5] [7] ⟨[9], [3], [[2]]⟩ =
      .ok (runDecodeDirect (fun t p s c row => t + p + s + c + row.sum) 4 false
        [5] [7] ⟨[9], [3], [[2]]⟩) :=
  decode_replay_equiv stBs1 (fun t p s c row => t + p + s + c + row.sum) 4 false
    [5] [7] ⟨[9], [3], [[2]]⟩ 1
    ⟨List.replicate 8 0, List.replicate 8 0, List.replicate 8 0, List.replicate 8 0,
      List.replicate 8 [], List.replicate 8 0⟩
    rfl (by decide) rfl rfl rfl rfl rfl (by decide)
    (by
      intro j hj
      have hj1 : j < 1 := by simpa using hj
      have hj0 : j = 0 := by omega
      subst hj0
      decide)

/-! ## Claim C1 -/

/-- Logits source for the concrete two-row stop scenario: at the prefill
event both rows peak at index 1; at every later event row 0 peaks at index 7
(its stop token) and row 1 still peaks at index 1. -/
def stopLogits : Nat → List (List ℚ) := fun n =>
  if n = 0 then [[0, 1], [0, 1]] else [[0, 0, 0, 0, 0, 0, 0, 1], [0, 1]]

/-- Greedy two-row generation parameters whose only stop token is 7. -/
def stopP : GenParams := ⟨id, stopLogits, fun _ => [], 0, [7]⟩

/-- Claim C1: in the decode loop, whenever some row of the current step
samples a token in the stop list, the stopping rows keep their sequence and
output unchanged, every non-stopping row of the same step still has its
token appended to both, and the loop halts after that step regardless of
the remaining budget; in particular, in the concrete two-row batch where
row 0 first emits its stop token at the second sampling event and row 1
never does, the loop halts with row 1 holding exactly its two generated
tokens. -/
theorem stop_policy_batch_halt :
    (∀ (P : GenParams) (seqs : List Seq') (gens : List (List Tok)) (n fuel : Nat),
      seqs ≠ [] → seqs.length ≤ 8 →
      (stepTokens P n seqs.length).any (stopHit P.stopTokens) = true →
      decodeLoop P (fuel + 1) n seqs gens = .ok
        (List.zipWith (fun s t => if stopHit P.stopTokens t then s else s.appendToken t)
          seqs (stepTokens P n seqs.length),
         List.zipWith (fun g t => if stopHit P.stopTokens t then g else g ++ [t])
          gens (stepTokens P n seqs.length))) ∧
    decodeLoop stopP 9 1 [⟨[5, 1], 1, 0, [], 0, 0⟩, ⟨[6, 1], 1, 0, [], 0, 0⟩] [[1], [1]] =
      .ok ([⟨[5, 1], 1, 0, [], 0, 0⟩, ⟨[6, 1, 1], 1, 0, [], 0, 0⟩], [[1], [1, 1]]) := by
  constructor
  · intro P seqs gens n fuel hne hb8 hstop
    have h1 : seqs.isEmpty = false := by
      cases seqs with
      | nil => exact absurd rfl hne
      | cons a t => rfl
    simp only [decodeLoop]
    rw [if_neg (by simp [h1]), if_neg (Nat.not_lt.mpr hb8)]
    simp [hstop]
  · decide

/-- Witness for claim C1: the general halt characterization applied to the
concrete two-row scenario at its stopping step. -/
theorem stop_policy_batch_halt_witness :
    decodeLoop stopP 1 1 [⟨[5, 1], 1, 0, [], 0, 0⟩, ⟨[6, 1], 1, 0, [], 0, 0⟩] [[1], [1]] =
      .ok (List.zipWith (fun s t => if stopHit stopP.stopTokens t then s else s.appendToken t)
          [⟨[5, 1], 1, 0, [], 0, 0⟩, ⟨[6, 1], 1, 0, [], 0, 0⟩] (stepTokens stopP 1 2),
        List.zipWith (fun g t => if stopHit stopP.stopTokens t then g else g ++ [t])
          [[1], [1]] (stepTokens stopP 1 2)) :=
  stop_policy_batch_halt.1 stopP
    [⟨[5, 1], 1, 0, [], 0, 0⟩, ⟨[6, 1], 1, 0, [], 0, 0⟩] [[1], [1]] 1 0
    (by decide) (by decide) (by decide)

/-! ## Decode loop without stop tokens -/

theorem stopHit_nil (t : Tok) : stopHit [] t = false := rfl

theorem any_stopHit_nil (l : List Tok) : l.any (stopHit []) = false := by
  induction l with
  | nil => rfl
  | cons a t ih => simp [List.any_cons, ih, stopHit_nil]

theorem foldl_appendToken_token_ids (c : List Tok) :
    ∀ s : Seq', (c.foldl Seq'.appendToken s).token_ids = s.token_ids ++ c := by
  induction c with
  | nil => intro s; simp
  | cons t ts ih =>
    intro s
    rw [List.foldl_cons, ih]
    simp [Seq'.appendToken]

theorem foldl_appendToken_prompt (c : List Tok) :
    ∀ s : Seq', (c.foldl Seq'.appendToken s).num_prompt_tokens = s.num_prompt_tokens := by
  induction c with
  | nil => intro s; rfl
  | cons t ts ih =>
    intro s
    rw [List.foldl_cons, ih]
    rfl

/-- Column view of the sampled tokens: the tokens row i receives over the
next fuel sampling events starting at event n. -/
def tokenColumn (P : GenParams) (b fuel n i : Nat) : List Tok :=
  (List.range fuel).map (fun k => (stepTokens P (n + k) b).getD i 0)

/-- Per-row token columns for a batch of b rows. -/
def tokenCols (P : GenParams) (b fuel n : Nat) : List (List Tok) :=
  (List.range b).map (tokenColumn P b fuel n)

theorem tokenColumn_succ (P : GenParams) (b fuel n i : Nat) :
    tokenColumn P b (fuel + 1) n i =
      (stepTokens P n b).getD i 0 :: tokenColumn P b fuel (n + 1) i := by
  unfold tokenColumn
  rw [List.range_succ_eq_map, List.map_cons, List.map_map]
  congr 1
  refine List.map_congr_left (fun k _ => ?_)
  have h : n + (k + 1) = n + 1 + k := by omega
  simp [Function.comp, h]

theorem tokenCols_succ (P : GenParams) (b fuel n : Nat)
    (hlen : (stepTokens P n b).length = b) :
    tokenCols P b (fuel + 1) n =
      List.zipWith List.cons (stepTokens P n b) (tokenCols P b fuel (n + 1)) := by
  refine List.ext_getElem ?_ (fun i h1 h2 => ?_)
  · simp [tokenCols, List.length_zipWith, hlen]
  · have hib : i < b := by simpa [tokenCols] using h1
    simp only [tokenCols, List.getElem_map, List.getElem_range, List.getElem_zipWith]
    rw [tokenColumn_succ]
    congr 1
    exact List.getD_eq_getElem _ 0 (by rw [hlen]; exact hib)

theorem zipWith_fold_cons (seqs : List Seq') (ts : List Tok) (cols : List (List Tok)) :
    List.zipWith (fun s c => c.foldl Seq'.appendToken s)
      (List.zipWith (fun s t => s.appendToken t) seqs ts) cols =
    List.zipWith (fun s c => c.foldl Seq'.appendToken s) seqs
      (List.zipWith List.cons ts cols) := by
  induction seqs generalizing ts cols with
  | nil => cases ts <;> cases cols <;> rfl
  | cons s ss ih =>
    cases ts with
    | nil => rfl
    | cons t tts =>
      cases cols with
      | nil => rfl
      | cons c cs =>
        simp only [List.zipWith_cons_cons, List.foldl_cons]
        rw [ih]

theorem zipWith_append_cons (gens : List (List Tok)) (ts : List Tok)
    (cols : List (List Tok)) :
    List.zipWith (fun g c => g ++ c)
      (List.zipWith (fun g t => g ++ [t]) gens ts) cols =
    List.zipWith (fun g c => g ++ c) gens (List.zipWith List.cons ts cols) := by
  induction gens generalizing ts cols with
  | nil => cases ts <;> cases cols <;> rfl
  | cons g gs ih =>
    cases ts with
    | nil => rfl
    | cons t tts =>
      cases cols with
      | nil => rfl
      | cons c cs =>
        simp only [List.zipWith_cons_cons]
        rw [ih]
        simp

theorem zipWith_fold_tokenCols_zero (P : GenParams) (b n : Nat) (seqs : List Seq')
    (h : seqs.length = b) :
    List.zipWith (fun s c => c.foldl Seq'.appendToken s) seqs (tokenCols P b 0 n) = seqs := by
  refine List.ext_getElem ?_ (fun i h1 h2 => ?_)
  · simp [tokenCols, List.length_zipWith, h]
  · simp only [List.getElem_zipWith, tokenCols, List.getElem_map, List.getElem_range]
    rfl

theorem zipWith_append_tokenCols_zero (P : GenParams) (b n : Nat) (gens : List (List Tok))
    (h : gens.length = b) :
    List.zipWith (fun g c => g ++ c) gens (tokenCols P b 0 n) = gens := by
  refine List.ext_getElem ?_ (fun i h1 h2 => ?_)
  · simp [tokenCols, List.length_zipWith, h]
  · simp only [List.getElem_zipWith, tokenCols, List.getElem_map, List.getElem_range]
    show gens[i] ++ (tokenColumn P b 0 n i) = gens[i]
    simp [tokenColumn]

theorem decodeLoop_no_stop (P : GenParams) (hstop : P.stopTokens = []) (b : Nat)
    (hb1 : 0 < b) (hb8 : b ≤ 8)
    (hsteps : ∀ m, (stepTokens P m b).length = b) :
    ∀ (fuel n : Nat) (seqs : List Seq') (gens : List (List Tok)),
      seqs.length = b → gens.length = b →
      decodeLoop P fuel n seqs gens = .ok
        (List.zipWith (fun s c => c.foldl Seq'.appendToken s) seqs (tokenCols P b fuel n),
         List.zipWith (fun g c => g ++ c) gens (tokenCols P b fuel n)) := by
  intro fuel
  induction fuel with
  | zero =>
    intro n seqs gens hs hg
    simp only [decodeLoop]
    rw [zipWith_fold_tokenCols_zero P b n seqs hs, zipWith_append_tokenCols_zero P b n gens hg]
  | succ f ih =>
    intro n seqs gens hs hg
    have hne : seqs.isEmpty = false := by
      cases seqs with
      | nil => rw [List.length_nil] at hs; omega
      | cons a t => rfl
    simp only [decodeLoop]
    rw [if_neg (by simp [hne]), if_neg (Nat.not_lt.mpr (by omega : seqs.length ≤ 8))]
    simp only [hstop, stopHit_nil, any_stopHit_nil, Bool.false_eq_true, if_false, hs]
    rw [ih (n + 1) (List.zipWith (fun s t => s.appendToken t) seqs (stepTokens P n b))
      (List.zipWith (fun g t => g ++ [t]) gens (stepTokens P n b))
      (by rw [List.length_zipWith, hs, hsteps n]; exact Nat.min_self b)
      (by rw [List.length_zipWith, hg, hsteps n]; exact Nat.min_self b)]
    rw [tokenCols_succ P b f n (hsteps n), zipWith_fold_cons, zipWith_append_cons]

theorem headD_eq_getD {α : Type} (l : List α) (d : α) : l.headD d = l.getD 0 d := by
  cases l <;> rfl

/-! ## Claim C7 -/

/-- Claim C7: for every generate call with temperature 0 and no stop tokens,
each output row is exactly that rows prompt tokens followed by one generated
token per sampling step, each equal to the arg-max of that steps logits. -/
theorem greedy_generate_output (P : GenParams) (prompts : List (List Tok))
    (maxNewTokens L : Nat)
    (htemp : P.temperature = 0) (hstop : P.stopTokens = [])
    (hne : prompts ≠ []) (hb8 : prompts.length ≤ 8) (hmax : 1 ≤ maxNewTokens)
    (hlog : ∀ n, (P.logitsAt n).length = prompts.length)
    (hL : ∀ p ∈ prompts, p.length = L) :
    generate P prompts maxNewTokens = .ok
      ((List.range prompts.length).map (fun i =>
        prompts.getD i [] ++ (List.range maxNewTokens).map (fun k =>
          ((argmaxIdx ((P.logitsAt k).getD i []) : Nat) : Int)))) := by
  obtain ⟨f, hf⟩ : ∃ f, maxNewTokens = f + 1 := ⟨maxNewTokens - 1, by omega⟩
  subst hf
  have hb1 : 0 < prompts.length := List.length_pos.mpr hne
  have hts : ∀ m, stepTokens P m prompts.length =
      (P.logitsAt m).map (fun row => ((argmaxIdx row : Nat) : Int)) := by
    intro m
    unfold stepTokens sampleTokens
    rw [htemp]
    simp
  have hsteps : ∀ m, (stepTokens P m prompts.length).length = prompts.length := by
    intro m
    rw [hts m, List.length_map, hlog m]
  have hsh : ∀ t, stopHit P.stopTokens t = false := fun t => by rw [hstop]; rfl
  have hanyf : (stepTokens P 0 prompts.length).any (stopHit P.stopTokens) = false := by
    rw [hstop]
    exact any_stopHit_nil _
  simp only [generate, Nat.add_sub_cancel]
  rw [if_neg (by rw [hanyf]; exact Bool.false_ne_true)]
  have hDL := decodeLoop_no_stop P hstop prompts.length hb1 hb8 hsteps f 1
    (List.zipWith Seq'.appendToken (prompts.map (fun p => Seq'.mk p p.length 0 [] 0 0))
      (stepTokens P 0 prompts.length))
    ((stepTokens P 0 prompts.length).map
      (fun t => if stopHit P.stopTokens t then ([] : List Tok) else [t]))
    (by rw [List.length_zipWith, List.length_map, hsteps 0]; exact Nat.min_self _)
    (by rw [List.length_map, hsteps 0])
  rw [hDL]
  show toTensor2D (List.zipWith (fun (s : Seq') g => s.token_ids.take s.num_prompt_tokens ++ g)
      (List.zipWith (fun s c => c.foldl Seq'.appendToken s)
        (List.zipWith Seq'.appendToken (prompts.map (fun p => Seq'.mk p p.length 0 [] 0 0))
          (stepTokens P 0 prompts.length))
        (tokenCols P prompts.length f 1))
      (List.zipWith (fun g c => g ++ c)
        ((stepTokens P 0 prompts.length).map
          (fun t => if stopHit P.stopTokens t then ([] : List Tok) else [t]))
        (tokenCols P prompts.length f 1))) = _
  have hcolslen : (tokenCols P prompts.length f 1).length = prompts.length := by
    simp [tokenCols]
  have hrows : List.zipWith (fun (s : Seq') g => s.token_ids.take s.num_prompt_tokens ++ g)
      (List.zipWith (fun s c => c.foldl Seq'.appendToken s)
        (List.zipWith Seq'.appendToken (prompts.map (fun p => Seq'.mk p p.length 0 [] 0 0))
          (stepTokens P 0 prompts.length))
        (tokenCols P prompts.length f 1))
      (List.zipWith (fun g c => g ++ c)
        ((stepTokens P 0 prompts.length).map
          (fun t => if stopHit P.stopTokens t then ([] : List Tok) else [t]))
        (tokenCols P prompts.length f 1)) =
      (List.range prompts.length).map (fun i =>
        prompts.getD i [] ++ (List.range (f + 1)).map (fun k =>
          ((argmaxIdx ((P.logitsAt k).getD i []) : Nat) : Int))) := by
    refine List.ext_getElem ?_ (fun i h1 h2 => ?_)
    · simp [List.length_zipWith, List.length_map, hsteps 0, hcolslen]
    · have hib : i < prompts.length := by simpa using h2
      have hits : i < (stepTokens P 0 prompts.length).length := by
        rw [hsteps 0]
        exact hib
      have hentry : ∀ m, (stepTokens P m prompts.length).getD i 0 =
          ((argmaxIdx ((P.logitsAt m).getD i []) : Nat) : Int) := by
        intro m
        have hm : i < (P.logitsAt m).length := by rw [hlog m]; exact hib
        rw [hts m, List.getD_eq_getElem _ 0 (by rw [List.length_map]; exact hm),
          List.getElem_map, List.getD_eq_getElem _ _ hm]
      simp only [List.getElem_zipWith, List.getElem_map, List.getElem_range]
      rw [foldl_appendToken_token_ids, foldl_appendToken_prompt]
      show ((Seq'.mk prompts[i] prompts[i].length 0 [] 0 0).token_ids ++
          [(stepTokens P 0 prompts.length)[i]] ++ _).take
            (Seq'.mk prompts[i] prompts[i].length 0 [] 0 0).num_prompt_tokens ++ _ = _
      rw [List.append_assoc]
      show (prompts[i] ++ _).take prompts[i].length ++ _ = _
      rw [List.take_left]
      rw [hsh ((stepTokens P 0 prompts.length)[i])]
      simp only [Bool.false_eq_true, if_false, tokenCols, List.getElem_map, List.getElem_range]
      rw [List.getD_eq_getElem prompts [] hib]
      congr 1
      have hx : (stepTokens P 0 prompts.length)[i] =
          (stepTokens P 0 prompts.length).getD i 0 :=
        (List.getD_eq_getElem _ 0 hits).symm
      rw [List.singleton_append, hx, hentry 0]
      rw [List.range_succ_eq_map, List.map_cons, List.map_map]
      congr 1
      unfold tokenColumn
      refine List.map_congr_left (fun k _ => ?_)
      rw [hentry (1 + k)]
      simp [Function.comp, Nat.add_comm 1 k]
  rw [hrows]
  unfold toTensor2D
  rw [if_pos]
  refine List.all_eq_true.mpr (fun row hrow => ?_)
  rcases List.mem_map.mp hrow with ⟨i, hi, hrw⟩
  have hib : i < prompts.length := List.mem_range.mp hi
  have hlen1 : ∀ j, j < prompts.length →
      (prompts.getD j [] ++ (List.range (f + 1)).map (fun k =>
        ((argmaxIdx ((P.logitsAt k).getD j []) : Nat) : Int))).length = L + (f + 1) := by
    intro j hj
    rw [List.length_append, List.length_map, List.length_range,
      List.getD_eq_getElem prompts [] hj, hL prompts[j] (List.getElem_mem hj)]
  have hhead : ((List.range prompts.length).map (fun i =>
      prompts.getD i [] ++ (List.range (f + 1)).map (fun k =>
        ((argmaxIdx ((P.logitsAt k).getD i []) : Nat) : Int)))).headD [] =
      prompts.getD 0 [] ++ (List.range (f + 1)).map (fun k =>
        ((argmaxIdx ((P.logitsAt k).getD 0 []) : Nat) : Int)) := by
    rw [headD_eq_getD, List.getD_eq_getElem _ _ (by simpa using hb1), List.getElem_map,
      List.getElem_range]
  rw [← hrw, hhead]
  simp only [hlen1 i hib, hlen1 0 hb1, decide_eq_true_eq]

/-- Greedy one-row generation parameters for the C7 witness. -/
def greedyP : GenParams := ⟨id, fun _ => [[0, 1]], fun _ => [], 0, []⟩

/-- Witness for claim C7: the end-to-end scenario with prompt [5, 9, 2] and
three greedy steps. -/
theorem greedy_generate_output_witness :
    generate greedyP [[5, 9, 2]] 3 = .ok
      ((List.range 1).map (fun i =>
        ([[5, 9, 2]] : List (List Tok)).getD i [] ++ (List.range 3).map (fun k =>
          ((argmaxIdx ((greedyP.logitsAt k).getD i []) : Nat) : Int)))) :=
  greedy_generate_output greedyP [[5, 9, 2]] 3 3 rfl rfl (by decide) (by decide)
    (by decide) (fun n => rfl) (by decide)

/-! ## Claim C10 -/

theorem toTensor2D_ragged (rows : List (List Tok)) (i j : Nat) (hi : i < rows.length)
    (hj : j < rows.length) (hne : rows[i].length ≠ rows[j].length) :
    toTensor2D rows = .error "ValueError: expected sequence of equal length" := by
  unfold toTensor2D
  rw [if_neg]
  intro hall
  have h1 := List.all_eq_true.mp hall rows[i] (List.getElem_mem hi)
  have h2 := List.all_eq_true.mp hall rows[j] (List.getElem_mem hj)
  simp only [decide_eq_true_eq] at h1 h2
  exact hne (h1.trans h2.symm)

/-- Claim C10: if, on the first sampled token after prefill in a multi-row
batch, some row hits a stop token and another row does not, the early-return
path builds ragged rows, lengths L and L + 1, and the rectangular output
tensor construction fails, so generate raises instead of returning. -/
theorem ragged_first_stop_raises (P : GenParams) (prompts : List (List Tok))
    (maxNewTokens L : Nat)
    (hL : ∀ p ∈ prompts, p.length = L)
    (htok : (stepTokens P 0 prompts.length).length = prompts.length)
    (i j : Nat) (hi : i < prompts.length) (hj : j < prompts.length)
    (hsi : stopHit P.stopTokens ((stepTokens P 0 prompts.length).getD i 0) = true)
    (hsj : stopHit P.stopTokens ((stepTokens P 0 prompts.length).getD j 0) = false) :
    generate P prompts maxNewTokens =
      .error "ValueError: expected sequence of equal length" := by
  have hits : i < (stepTokens P 0 prompts.length).length := by rw [htok]; exact hi
  have hjts : j < (stepTokens P 0 prompts.length).length := by rw [htok]; exact hj
  have hsi' : stopHit P.stopTokens (stepTokens P 0 prompts.length)[i] = true := by
    rwa [List.getD_eq_getElem _ 0 hits] at hsi
  have hsj' : stopHit P.stopTokens (stepTokens P 0 prompts.length)[j] = false := by
    rwa [List.getD_eq_getElem _ 0 hjts] at hsj
  have hany : (stepTokens P 0 prompts.length).any (stopHit P.stopTokens) = true :=
    List.any_eq_true.mpr ⟨_, List.getElem_mem hits, hsi'⟩
  simp only [generate]
  rw [if_pos hany]
  refine toTensor2D_ragged _ i j ?_ ?_ ?_
  · rw [List.length_zipWith, List.length_map, htok]
    simpa using hi
  · rw [List.length_zipWith, List.length_map, htok]
    simpa using hj
  · rw [List.getElem_zipWith, List.getElem_zipWith, List.getElem_map, List.getElem_map]
    rw [hsi', hsj']
    simp only [if_true, Bool.false_eq_true, if_false, List.length_append]
    rw [hL prompts[i] (List.getElem_mem hi), hL prompts[j] (List.getElem_mem hj)]
    simp

/-- Mixed-stop generation parameters for the C10 witness: at the first
sampling event row 0 selects token 1, the stop token, while row 1 selects
token 0. -/
def mixedP : GenParams := ⟨id, fun _ => [[0, 1], [1, 0]], fun _ => [], 0, [1]⟩

/-- Witness for claim C10 at a concrete two-row batch. -/
theorem ragged_first_stop_raises_witness :
    generate mixedP [[4], [5]] 5 =
      .error "ValueError: expected sequence of equal length" :=
  ragged_first_stop_raises mixedP [[4], [5]] 5 1 (by decide) rfl 0 1 (by decide)
    (by decide) (by decide) (by decide)
